import Mathlib

/-!
# Verification of the fraud-ring investigation engine

Shallow embedding of the agent-fraud-demo backend (risk scoring, expansion
decision policy, graph traversal round, ring classification, evidence
aggregation) together with proofs of the specification claims.

Conventions:
* Python floats are modelled as rationals (`ℚ`); every score produced by the
  scorer is a rational with small denominator, and no property at issue
  depends on binary floating-point rounding.
* External collaborators (the Gremlin graph backend, the feature provider,
  the LLM advisor) are modelled as oracle functions supplied as arguments;
  a failing collaborator is an `Option`-valued oracle returning `none`.
* Python dict/set state is modelled with association lists / `Finset`.
-/

namespace AgentFraud

/-! ## Risk scoring (`backend/tools/risk_scoring_tool.py`)

`Features` is the feature bag returned by
`AerospikeGraphService.get_account_features` (only the five fields read by
`_score_single_account` are carried). -/

structure Features where
  shared_device_accounts : Nat
  shared_ip_accounts : Nat
  transaction_count : Nat
  is_vpn_user : Bool
  is_emulator_user : Bool
deriving DecidableEq, Repr

/-- One `{code, weight, description}` reason entry; the free-text description
is presentation only and is not modelled. -/
structure Reason where
  code : String
  weight : ℚ
deriving DecidableEq, Repr

/-- `AccountScore` from `workflow/state.py`.  The evidence snapshot is the
feature bag (`none` for the error-substituted entries, whose evidence dict is
`{}` in the source). -/
structure AccountScore where
  account_id : String
  score : ℚ
  bucket : String
  reasons : List Reason
  evidence : Option Features
deriving DecidableEq, Repr

/-- Shared-device contribution (`risk_scoring_tool.py` lines 122-125):
`min(shared_devices / 10.0, 1.0) * 35` when `shared_devices > 0`. -/
def deviceScore (f : Features) : ℚ :=
  if f.shared_device_accounts > 0 then
    min ((f.shared_device_accounts : ℚ) / 10) 1 * 35
  else 0

/-- Shared-IP contribution (lines 134-137): `min(shared_ips / 15.0, 1.0) * 25`
when `shared_ips > 0`. -/
def ipScore (f : Features) : ℚ :=
  if f.shared_ip_accounts > 0 then
    min ((f.shared_ip_accounts : ℚ) / 15) 1 * 25
  else 0

/-- VPN contribution (lines 146-148): flat 15 when flagged. -/
def vpnScore (f : Features) : ℚ := if f.is_vpn_user then 15 else 0

/-- Emulator contribution (lines 156-158): flat 15 when flagged. -/
def emulatorScore (f : Features) : ℚ := if f.is_emulator_user then 15 else 0

/-- Transaction-velocity contribution (lines 166-169):
`min((tx_count - 20) / 30.0, 1.0) * 10` when `tx_count > 20`. -/
def velocityScore (f : Features) : ℚ :=
  if f.transaction_count > 20 then
    min (((f.transaction_count : ℚ) - 20) / 30) 1 * 10
  else 0

/-- The accumulated unnormalized score of `_score_single_account`. -/
def rawScore (f : Features) : ℚ :=
  deviceScore f + ipScore f + vpnScore f + emulatorScore f + velocityScore f

/-- Line 177: `normalized_score = min(score / 100.0, 1.0)`. -/
def normalizedScore (f : Features) : ℚ := min (rawScore f / 100) 1

/-- Bucket ladder of `_score_single_account` (lines 180-187), reproduced
exactly as written in the source, including the duplicated `>= 0.8` test on
the branch labelled "high". -/
def bucketOf (s : ℚ) : String :=
  if s ≥ 0.8 then "critical"
  else if s ≥ 0.8 then "high"
  else if s ≥ 0.4 then "medium"
  else "low"

/-- Python `round(x, 3)`.  Lean's `round` (half away from `⌊·+1/2⌋`) is used;
every score reachable from integer feature counts is a multiple of `1/600`,
for which a `.0005` tie is impossible, so the tie-breaking convention is
irrelevant to the embedded behaviour. -/
def round3 (q : ℚ) : ℚ := (⌊q * 1000 + 1 / 2⌋ : ℚ) / 1000

/-- The reason list accumulated by `_score_single_account` (before the
`LOW_RISK` default is substituted). -/
def scoreReasons (f : Features) : List Reason :=
  (if f.shared_device_accounts > 0 ∧ f.shared_device_accounts ≥ 3 then
    [⟨"SHARED_DEVICES", deviceScore f⟩] else []) ++
  (if f.shared_ip_accounts > 0 ∧ f.shared_ip_accounts ≥ 5 then
    [⟨"SHARED_IPS", ipScore f⟩] else []) ++
  (if f.is_vpn_user then [⟨"VPN_USAGE", 15⟩] else []) ++
  (if f.is_emulator_user then [⟨"EMULATOR_USAGE", 15⟩] else []) ++
  (if f.transaction_count > 20 then [⟨"HIGH_TX_VELOCITY", velocityScore f⟩] else [])

/-- `RiskScoringTool._score_single_account` (the `suspect_account_id` and
`context` parameters are never read by the scoring logic and are omitted). -/
def scoreSingleAccount (account_id : String) (f : Features) : AccountScore :=
  let rs := scoreReasons f
  { account_id := account_id
    score := round3 (normalizedScore f)
    bucket := bucketOf (normalizedScore f)
    reasons := if rs = [] then [⟨"LOW_RISK", 0⟩] else rs
    evidence := some f }

/-- The default low score substituted when scoring one account raises
(`RiskScoringTool.invoke` lines 68-77). -/
def defaultErrorScore (account_id : String) : AccountScore :=
  { account_id := account_id
    score := 0.1
    bucket := "low"
    reasons := [⟨"SCORING_ERROR", 0⟩]
    evidence := none }

/-- `RiskScoringTool.invoke`: scores every requested account, substituting
the default entry whenever the feature lookup fails (`provider` returning
`none` models `get_account_features` raising). -/
def invokeRiskScoring (provider : String → Option Features) (account_ids : List String) :
    List AccountScore :=
  account_ids.map fun aid =>
    match provider aid with
    | some f => scoreSingleAccount aid f
    | none => defaultErrorScore aid

/-- Bucket summary counts of `RiskScoringTool.invoke` (lines 80-82). -/
def highRiskCountOf (scores : List AccountScore) : Nat :=
  (scores.filter fun s => s.bucket = "high" ∨ s.bucket = "critical").length

lemma deviceScore_nonneg (f : Features) : 0 ≤ deviceScore f := by
  unfold deviceScore
  split
  · positivity
  · exact le_refl 0

lemma ipScore_nonneg (f : Features) : 0 ≤ ipScore f := by
  unfold ipScore
  split
  · positivity
  · exact le_refl 0

lemma vpnScore_nonneg (f : Features) : 0 ≤ vpnScore f := by
  unfold vpnScore; split <;> norm_num

lemma emulatorScore_nonneg (f : Features) : 0 ≤ emulatorScore f := by
  unfold emulatorScore; split <;> norm_num

lemma velocityScore_nonneg (f : Features) : 0 ≤ velocityScore f := by
  unfold velocityScore
  split
  · rename_i h
    have h20 : (20 : ℚ) ≤ (f.transaction_count : ℚ) := by exact_mod_cast h.le
    have : (0 : ℚ) ≤ ((f.transaction_count : ℚ) - 20) / 30 := by linarith
    have hm : (0 : ℚ) ≤ min (((f.transaction_count : ℚ) - 20) / 30) 1 :=
      le_min this (by norm_num)
    linarith [mul_nonneg hm (by norm_num : (0:ℚ) ≤ 10)]
  · exact le_refl 0

lemma rawScore_nonneg (f : Features) : 0 ≤ rawScore f := by
  unfold rawScore
  have h1 := deviceScore_nonneg f
  have h2 := ipScore_nonneg f
  have h3 := vpnScore_nonneg f
  have h4 := emulatorScore_nonneg f
  have h5 := velocityScore_nonneg f
  linarith

lemma normalizedScore_nonneg (f : Features) : 0 ≤ normalizedScore f := by
  unfold normalizedScore
  have := rawScore_nonneg f
  exact le_min (by positivity) (by norm_num)

lemma normalizedScore_le_one (f : Features) : normalizedScore f ≤ 1 :=
  min_le_right _ _

lemma round3_mono {q r : ℚ} (h : q ≤ r) : round3 q ≤ round3 r := by
  unfold round3
  have : q * 1000 + 1 / 2 ≤ r * 1000 + 1 / 2 := by linarith
  have hf := Int.floor_mono this
  have : ((⌊q * 1000 + 1 / 2⌋ : ℚ)) ≤ ((⌊r * 1000 + 1 / 2⌋ : ℚ)) := by exact_mod_cast hf
  linarith

lemma round3_zero : round3 0 = 0 := by
  unfold round3
  norm_num

lemma round3_one : round3 1 = 1 := by
  have h : ⌊(1 : ℚ) * 1000 + 1 / 2⌋ = 1000 := by
    rw [Int.floor_eq_iff]; norm_num
  unfold round3
  rw [h]
  norm_num

lemma score_nonneg (a : String) (f : Features) : 0 ≤ (scoreSingleAccount a f).score := by
  have h := round3_mono (normalizedScore_nonneg f)
  rw [round3_zero] at h
  exact h

lemma score_le_one (a : String) (f : Features) : (scoreSingleAccount a f).score ≤ 1 := by
  have h := round3_mono (normalizedScore_le_one f)
  rw [round3_one] at h
  exact h

/-- **C3** (code bug, spec §9): the source's bucket ladder tests
`normalized_score >= 0.8` twice — once for "critical" and once, dead, for
"high" — so the "high" bucket is unreachable: every score is classified
"critical", "medium" or "low", and a score such as `0.7` that a coherent
low/medium/high/critical ladder would place in "high" is classified
"medium". -/
theorem C3_high_bucket_unreachable :
    bucketOf (7 / 10) = "medium" ∧
    ∀ s : ℚ, bucketOf s = "critical" ∨ bucketOf s = "medium" ∨ bucketOf s = "low" := by
  constructor
  · norm_num [bucketOf]
  · intro s
    unfold bucketOf
    split_ifs <;> simp

/-- **C8**: every produced `AccountScore` has `0 ≤ score ≤ 1`, and the bucket
is a deterministic function of the normalized score alone: any two accounts
whose feature bags yield equal normalized scores receive the same bucket. -/
theorem C8_score_bounded_bucket_deterministic :
    (∀ (a : String) (f : Features),
      0 ≤ (scoreSingleAccount a f).score ∧ (scoreSingleAccount a f).score ≤ 1) ∧
    (∀ (a₁ : String) (f₁ : Features) (a₂ : String) (f₂ : Features),
      normalizedScore f₁ = normalizedScore f₂ →
      (scoreSingleAccount a₁ f₁).bucket = (scoreSingleAccount a₂ f₂).bucket) := by
  constructor
  · exact fun a f => ⟨score_nonneg a f, score_le_one a f⟩
  · intro a₁ f₁ a₂ f₂ h
    show bucketOf (normalizedScore f₁) = bucketOf (normalizedScore f₂)
    rw [h]

/-- Feature bag used by concrete witnesses: 4 shared-device accounts,
nothing else. -/
def witnessFeatures : Features :=
  { shared_device_accounts := 4
    shared_ip_accounts := 0
    transaction_count := 0
    is_vpn_user := false
    is_emulator_user := false }

/-- Witness for C8 at a concrete input. -/
theorem C8_witness :
    (0 ≤ (scoreSingleAccount "acct_1" witnessFeatures).score ∧
      (scoreSingleAccount "acct_1" witnessFeatures).score ≤ 1) ∧
    (scoreSingleAccount "acct_1" witnessFeatures).bucket =
      (scoreSingleAccount "acct_2" witnessFeatures).bucket :=
  ⟨C8_score_bounded_bucket_deterministic.1 "acct_1" witnessFeatures,
    C8_score_bounded_bucket_deterministic.2 "acct_1" witnessFeatures "acct_2" witnessFeatures rfl⟩

/-- **C7**: a per-account feature-lookup failure never aborts the batch:
the output has exactly one entry per requested account id (in order), a
failed account gets the fixed default `0.1`/"low" score whose single reason
code is `SCORING_ERROR`, and every account whose lookup succeeds is scored
normally via `_score_single_account`. -/
theorem C7_scoring_failure_isolated (p : String → Option Features) (ids : List String) :
    ((invokeRiskScoring p ids).map (·.account_id) = ids) ∧
    (∀ sc ∈ invokeRiskScoring p ids, p sc.account_id = none →
      sc.score = 0.1 ∧ sc.bucket = "low" ∧ sc.reasons.map (·.code) = ["SCORING_ERROR"]) ∧
    (∀ sc ∈ invokeRiskScoring p ids, ∀ f, p sc.account_id = some f →
      sc = scoreSingleAccount sc.account_id f) := by
  have hid : ∀ aid, ((match p aid with
      | some f => scoreSingleAccount aid f
      | none => defaultErrorScore aid) : AccountScore).account_id = aid := by
    intro aid
    cases p aid <;> rfl
  refine ⟨?_, ?_, ?_⟩
  · rw [invokeRiskScoring, List.map_map]
    have : ∀ aid ∈ ids, ((fun sc => sc.account_id) ∘ fun aid => (match p aid with
        | some f => scoreSingleAccount aid f
        | none => defaultErrorScore aid)) aid = aid := fun aid _ => hid aid
    rw [List.map_congr_left this]
    simp
  · intro sc hsc hnone
    rw [invokeRiskScoring, List.mem_map] at hsc
    obtain ⟨aid, -, rfl⟩ := hsc
    rw [hid aid] at hnone
    rw [hnone]
    constructor
    · rfl
    · constructor
      · rfl
      · rfl
  · intro sc hsc f hsome
    rw [invokeRiskScoring, List.mem_map] at hsc
    obtain ⟨aid, -, rfl⟩ := hsc
    rw [hid aid] at hsome
    rw [hsome]
    rfl

/-- Feature provider used by the C7 witness: `acct_ok` resolves,
`acct_fail` raises. -/
def witnessProvider : String → Option Features :=
  fun aid => if aid = "acct_ok" then some witnessFeatures else none

/-- Witness for C7 at a concrete batch with one failing account. -/
theorem C7_witness :
    ((invokeRiskScoring witnessProvider ["acct_ok", "acct_fail"]).map (·.account_id) =
      ["acct_ok", "acct_fail"]) ∧
    (defaultErrorScore "acct_fail").score = 0.1 ∧
    (defaultErrorScore "acct_fail").bucket = "low" ∧
    (defaultErrorScore "acct_fail").reasons.map (·.code) = ["SCORING_ERROR"] := by
  have h := C7_scoring_failure_isolated witnessProvider ["acct_ok", "acct_fail"]
  refine ⟨h.1, ?_⟩
  have hmem : defaultErrorScore "acct_fail" ∈
      invokeRiskScoring witnessProvider ["acct_ok", "acct_fail"] := by
    rw [invokeRiskScoring]
    simp [witnessProvider]
  exact h.2.1 (defaultErrorScore "acct_fail") hmem (by rfl)

/-! ## Expansion decision (`backend/workflow/nodes/decide_expand.py`) -/

/-- `ExpandDecision` from `workflow/state.py` (the free-text `llm_reasoning`
trace field is presentation only and is not modelled). -/
structure ExpandDecision where
  should_expand : Bool
  next_edge_types : List String
  reason : String
deriving DecidableEq, Repr

/-- `decide_expand.py` line 27: `ABSOLUTE_MAX_HOPS = 10`. -/
def ABSOLUTE_MAX_HOPS : Nat := 10

/-- `_fallback_decision` (lines 326-359), deterministic decision applied when
the LLM call fails. -/
def fallbackDecision (current_hop : Nat) (frontier : List String)
    (scores : List AccountScore) : ExpandDecision :=
  let high_risk_count := highRiskCountOf scores
  let frontier_len := frontier.length
  let sr : Bool × String :=
    if frontier.length = 0 then
      (false, "No more accounts in frontier to explore")
    else if current_hop ≥ 5 ∧ high_risk_count ≥ 5 then
      (false, s!"Fraud ring identified: {high_risk_count} high-risk accounts after {current_hop} hops")
    else if current_hop ≥ 7 then
      (false, s!"Exploration complete: {current_hop} hops, {high_risk_count} high-risk accounts")
    else if frontier.length > 0 then
      (true, s!"Continuing exploration: {frontier_len} accounts in frontier, {high_risk_count} high-risk found")
    else
      (false, "")
  { should_expand := sr.1
    next_edge_types := if sr.1 then ["device", "ip", "tx"] else []
    reason := sr.2 }

/-- Outcome of `decide_expand_node`: the decision plus whether the external
LLM advisor was invoked at all. -/
structure DecideOutcome where
  decision : ExpandDecision
  advisor_called : Bool
deriving DecidableEq, Repr

/-- `decide_expand_node` (lines 30-188).  `_call_llm_for_decision` is the
external advisor, modelled by the `advisor` oracle: `some d` is a
successfully parsed decision (with `next_edge_types` already defaulted by the
parser), `none` a failure / timeout / malformed payload, which routes to
`_fallback_decision`.  Hard caps are checked first and skip the advisor. -/
def decideExpandNode (current_hop : Nat) (frontier : List String)
    (scores : List AccountScore) (advisor : Option ExpandDecision) : DecideOutcome :=
  if current_hop ≥ ABSOLUTE_MAX_HOPS then
    { decision := { should_expand := false, next_edge_types := [],
                    reason := "Absolute hop limit reached (10)" }
      advisor_called := false }
  else if frontier.length = 0 then
    { decision := { should_expand := false, next_edge_types := [],
                    reason := "No accounts in frontier to explore" }
      advisor_called := false }
  else
    match advisor with
    | some d => { decision := d, advisor_called := true }
    | none =>
      { decision := fallbackDecision current_hop frontier scores
        advisor_called := true }

/-- Hop counters reachable in the workflow loop of `workflow/graph.py`:
`load_context` starts at hop 0, the unconditional edge
`load_context → traverse_graph` advances to hop 1, and every later
`traverse_graph` entry is guarded by `should_continue_expansion`, i.e. a
positive `decide_expand` outcome at the previous hop.  The oracles give, for
each hop, the frontier and scores visible to `decide_expand` there and the
advisor's reply. -/
inductive ReachableHop (frontierAt : Nat → List String)
    (scoresAt : Nat → List AccountScore)
    (advisorAt : Nat → Option ExpandDecision) : Nat → Prop
  | start : ReachableHop frontierAt scoresAt advisorAt 0
  | first_traverse : ReachableHop frontierAt scoresAt advisorAt 1
  | expand (h : Nat) :
      ReachableHop frontierAt scoresAt advisorAt h →
      (decideExpandNode h (frontierAt h) (scoresAt h)
        (advisorAt h)).decision.should_expand = true →
      ReachableHop frontierAt scoresAt advisorAt (h + 1)

lemma decideExpandNode_hard_stop (current_hop : Nat) (frontier : List String)
    (scores : List AccountScore) (advisor : Option ExpandDecision)
    (hyp : current_hop ≥ ABSOLUTE_MAX_HOPS ∨ frontier = []) :
    (decideExpandNode current_hop frontier scores advisor).decision.should_expand = false ∧
    (decideExpandNode current_hop frontier scores advisor).advisor_called = false := by
  unfold decideExpandNode
  split_ifs with h1 h2
  · exact ⟨rfl, rfl⟩
  · exact ⟨rfl, rfl⟩
  · rcases hyp with h | h
    · exact absurd h h1
    · subst h
      simp at h2

lemma reachableHop_le (frontierAt : Nat → List String)
    (scoresAt : Nat → List AccountScore)
    (advisorAt : Nat → Option ExpandDecision) (h : Nat)
    (hr : ReachableHop frontierAt scoresAt advisorAt h) : h ≤ ABSOLUTE_MAX_HOPS := by
  induction hr with
  | start => norm_num [ABSOLUTE_MAX_HOPS]
  | first_traverse => norm_num [ABSOLUTE_MAX_HOPS]
  | expand k hk hdec ih =>
    by_contra hgt
    have hge : k ≥ ABSOLUTE_MAX_HOPS := by omega
    have hstop := decideExpandNode_hard_stop k (frontierAt k) (scoresAt k)
      (advisorAt k) (Or.inl hge)
    rw [hstop.1] at hdec
    exact Bool.noConfusion hdec

/-- **C2**: whenever the hop counter has reached the absolute ceiling
(`ABSOLUTE_MAX_HOPS = 10`) or the frontier is empty, `decide_expand` returns
a stop without any advisor call; consequently no reachable state of the hop
loop has a hop counter above the ceiling. -/
theorem C2_hard_cap_guard :
    (∀ (current_hop : Nat) (frontier : List String) (scores : List AccountScore)
        (advisor : Option ExpandDecision),
      current_hop ≥ ABSOLUTE_MAX_HOPS ∨ frontier = [] →
      (decideExpandNode current_hop frontier scores advisor).decision.should_expand = false ∧
      (decideExpandNode current_hop frontier scores advisor).advisor_called = false) ∧
    (∀ (frontierAt : Nat → List String) (scoresAt : Nat → List AccountScore)
        (advisorAt : Nat → Option ExpandDecision) (h : Nat),
      ReachableHop frontierAt scoresAt advisorAt h → h ≤ ABSOLUTE_MAX_HOPS) :=
  ⟨decideExpandNode_hard_stop, reachableHop_le⟩

/-- Witness for C2: at hop 10 with a non-empty frontier the decision is a
hard stop with no advisor call, even when an eager advisor is available; and
hop 1 (always reachable) is within the ceiling. -/
theorem C2_witness :
    (decideExpandNode 10 ["acct_9"] []
      (some ⟨true, ["device"], "go on"⟩)).decision.should_expand = false ∧
    (decideExpandNode 10 ["acct_9"] []
      (some ⟨true, ["device"], "go on"⟩)).advisor_called = false ∧
    1 ≤ ABSOLUTE_MAX_HOPS := by
  have h1 := C2_hard_cap_guard.1 10 ["acct_9"] [] (some ⟨true, ["device"], "go on"⟩)
    (Or.inl (by norm_num [ABSOLUTE_MAX_HOPS]))
  have h2 := C2_hard_cap_guard.2 (fun _ => ["acct_9"]) (fun _ => []) (fun _ => none) 1
    ReachableHop.first_traverse
  exact ⟨h1.1, h1.2, h2⟩

/-- **C4**: on advisor failure the fallback decision is exactly: stop when
the frontier is empty; else stop with a "Fraud ring identified" reason when
hop ≥ 5 and the high/critical count is ≥ 5; else stop with an "Exploration
complete" reason when hop ≥ 7; else continue with all three edge types and a
"Continuing exploration" reason. -/
theorem C4_fallback_policy (current_hop : Nat) (frontier : List String)
    (scores : List AccountScore) :
    (frontier = [] →
      fallbackDecision current_hop frontier scores =
        ⟨false, [], "No more accounts in frontier to explore"⟩) ∧
    (frontier ≠ [] → current_hop ≥ 5 → highRiskCountOf scores ≥ 5 →
      (fallbackDecision current_hop frontier scores).should_expand = false ∧
      (fallbackDecision current_hop frontier scores).next_edge_types = [] ∧
      "Fraud ring identified".data <+:
        (fallbackDecision current_hop frontier scores).reason.data) ∧
    (frontier ≠ [] → ¬(current_hop ≥ 5 ∧ highRiskCountOf scores ≥ 5) →
      current_hop ≥ 7 →
      (fallbackDecision current_hop frontier scores).should_expand = false ∧
      (fallbackDecision current_hop frontier scores).next_edge_types = [] ∧
      "Exploration complete".data <+:
        (fallbackDecision current_hop frontier scores).reason.data) ∧
    (frontier ≠ [] → ¬(current_hop ≥ 5 ∧ highRiskCountOf scores ≥ 5) →
      current_hop < 7 →
      (fallbackDecision current_hop frontier scores).should_expand = true ∧
      (fallbackDecision current_hop frontier scores).next_edge_types =
        ["device", "ip", "tx"] ∧
      "Continuing exploration".data <+:
        (fallbackDecision current_hop frontier scores).reason.data) := by
  refine ⟨?_, ?_, ?_, ?_⟩
  · intro he
    subst he
    rfl
  · intro hne h5 hc
    have hlen : ¬(frontier.length = 0) := by
      simpa using hne
    unfold fallbackDecision
    simp only [hlen, if_false, if_pos (And.intro h5 hc)]
    refine ⟨by trivial, by simp, ?_⟩
    simp only [String.data_append]
    exact List.IsPrefix.trans
      (show "Fraud ring identified".data <+: "Fraud ring identified: ".data by decide)
      (List.prefix_append _ _)
  · intro hne hnand h7
    have hlen : ¬(frontier.length = 0) := by
      simpa using hne
    unfold fallbackDecision
    simp only [hlen, if_false, if_neg hnand, if_pos h7]
    refine ⟨by trivial, by simp, ?_⟩
    simp only [String.data_append]
    exact List.IsPrefix.trans
      (show "Exploration complete".data <+: "Exploration complete: ".data by decide)
      (List.prefix_append _ _)
  · intro hne hnand h7
    have hlen : ¬(frontier.length = 0) := by
      simpa using hne
    have hpos : frontier.length > 0 := by
      omega
    unfold fallbackDecision
    simp only [hlen, if_false, if_neg hnand, if_neg (by omega : ¬(current_hop ≥ 7)),
      if_pos hpos]
    refine ⟨by trivial, by simp, ?_⟩
    simp only [String.data_append]
    exact List.IsPrefix.trans
      (show "Continuing exploration".data <+: "Continuing exploration: ".data by decide)
      (List.prefix_append _ _)

/-- A "critical"-bucket score entry used to witness scenario C. -/
def criticalScoreEntry (aid : String) : AccountScore :=
  { account_id := aid, score := 0.9, bucket := "critical", reasons := [], evidence := none }

/-- Witness for C4, spec scenario C: hop 6, five high/critical accounts,
non-empty frontier, advisor unavailable → stop with a "Fraud ring
identified" reason. -/
theorem C4_witness :
    (fallbackDecision 6 ["acct_7"]
      (["a1", "a2", "a3", "a4", "a5"].map criticalScoreEntry)).should_expand = false ∧
    "Fraud ring identified".data <+:
      (fallbackDecision 6 ["acct_7"]
        (["a1", "a2", "a3", "a4", "a5"].map criticalScoreEntry)).reason.data := by
  have h := (C4_fallback_policy 6 ["acct_7"]
    (["a1", "a2", "a3", "a4", "a5"].map criticalScoreEntry)).2.1
    (by simp) (by norm_num)
    (by norm_num [highRiskCountOf, criticalScoreEntry, List.filter])
  exact ⟨h.1, h.2.2⟩

/-! ## Ring classification (`backend/workflow/nodes/build_subgraph.py`) -/

/-- Line 41: `fraud_ring_threshold = 0.8`. -/
def fraud_ring_threshold : ℚ := 0.8

/-- One iteration of the classification loop of `build_subgraph_node`
(lines 45-50): a scored account joins the ring set when its score is
`≥ fraud_ring_threshold` and the innocent set otherwise. -/
def partitionStep (acc : Finset String × Finset String) (p : String × ℚ) :
    Finset String × Finset String :=
  if p.2 ≥ fraud_ring_threshold then (insert p.1 acc.1, acc.2)
  else (acc.1, insert p.1 acc.2)

/-- `build_subgraph_node` classification (lines 42-50): fold the loop over
the scores dict (an association list with the dict's unique keys), starting
from ring = `{suspect}` ("Always include suspect") and innocent = `∅`. -/
def buildPartition (suspect : String) (scores : List (String × ℚ)) :
    Finset String × Finset String :=
  scores.foldl partitionStep ({suspect}, ∅)

lemma mem_foldl_partition_fst (l : List (String × ℚ)) :
    ∀ (init : Finset String × Finset String) (a : String),
    (a ∈ (l.foldl partitionStep init).1 ↔
      a ∈ init.1 ∨ ∃ q, (a, q) ∈ l ∧ q ≥ fraud_ring_threshold) := by
  induction l with
  | nil =>
    intro init a
    simp
  | cons p t ih =>
    obtain ⟨x, q⟩ := p
    intro init a
    rw [List.foldl_cons]
    by_cases hq : q ≥ fraud_ring_threshold
    · rw [show partitionStep init (x, q) = (insert x init.1, init.2) from by
        simp [partitionStep, hq]]
      rw [ih]
      simp only [Finset.mem_insert, List.mem_cons, Prod.mk.injEq]
      constructor
      · rintro ((rfl | h) | ⟨r, hr, hge⟩)
        · exact Or.inr ⟨q, Or.inl ⟨rfl, rfl⟩, hq⟩
        · exact Or.inl h
        · exact Or.inr ⟨r, Or.inr hr, hge⟩
      · rintro (h | ⟨r, (⟨rfl, rfl⟩ | hr), hge⟩)
        · exact Or.inl (Or.inr h)
        · exact Or.inl (Or.inl rfl)
        · exact Or.inr ⟨r, hr, hge⟩
    · rw [show partitionStep init (x, q) = (init.1, insert x init.2) from by
        simp [partitionStep, hq]]
      rw [ih]
      simp only [List.mem_cons, Prod.mk.injEq]
      constructor
      · rintro (h | ⟨r, hr, hge⟩)
        · exact Or.inl h
        · exact Or.inr ⟨r, Or.inr hr, hge⟩
      · rintro (h | ⟨r, (⟨rfl, rfl⟩ | hr), hge⟩)
        · exact Or.inl h
        · exact absurd hge hq
        · exact Or.inr ⟨r, hr, hge⟩

lemma mem_foldl_partition_snd (l : List (String × ℚ)) :
    ∀ (init : Finset String × Finset String) (a : String),
    (a ∈ (l.foldl partitionStep init).2 ↔
      a ∈ init.2 ∨ ∃ q, (a, q) ∈ l ∧ ¬ q ≥ fraud_ring_threshold) := by
  induction l with
  | nil =>
    intro init a
    simp
  | cons p t ih =>
    obtain ⟨x, q⟩ := p
    intro init a
    rw [List.foldl_cons]
    by_cases hq : q ≥ fraud_ring_threshold
    · rw [show partitionStep init (x, q) = (insert x init.1, init.2) from by
        simp [partitionStep, hq]]
      rw [ih]
      simp only [List.mem_cons, Prod.mk.injEq]
      constructor
      · rintro (h | ⟨r, hr, hlt⟩)
        · exact Or.inl h
        · exact Or.inr ⟨r, Or.inr hr, hlt⟩
      · rintro (h | ⟨r, (⟨rfl, rfl⟩ | hr), hlt⟩)
        · exact Or.inl h
        · exact absurd hq hlt
        · exact Or.inr ⟨r, hr, hlt⟩
    · rw [show partitionStep init (x, q) = (init.1, insert x init.2) from by
        simp [partitionStep, hq]]
      rw [ih]
      simp only [Finset.mem_insert, List.mem_cons, Prod.mk.injEq]
      constructor
      · rintro ((rfl | h) | ⟨r, hr, hlt⟩)
        · exact Or.inr ⟨q, Or.inl ⟨rfl, rfl⟩, hq⟩
        · exact Or.inl h
        · exact Or.inr ⟨r, Or.inr hr, hlt⟩
      · rintro (h | ⟨r, (⟨rfl, rfl⟩ | hr), hlt⟩)
        · exact Or.inl (Or.inr h)
        · exact Or.inl (Or.inl rfl)
        · exact Or.inr ⟨r, hr, hlt⟩

lemma mem_buildPartition_fst (suspect : String) (scores : List (String × ℚ)) (a : String) :
    a ∈ (buildPartition suspect scores).1 ↔
      a = suspect ∨ ∃ q, (a, q) ∈ scores ∧ q ≥ fraud_ring_threshold := by
  unfold buildPartition
  rw [mem_foldl_partition_fst]
  simp

lemma mem_buildPartition_snd (suspect : String) (scores : List (String × ℚ)) (a : String) :
    a ∈ (buildPartition suspect scores).2 ↔
      ∃ q, (a, q) ∈ scores ∧ ¬ q ≥ fraud_ring_threshold := by
  unfold buildPartition
  rw [mem_foldl_partition_snd]
  simp

lemma value_eq_of_nodup_keys {l : List (String × ℚ)} (h : (l.map Prod.fst).Nodup)
    {a : String} {q r : ℚ} (h1 : (a, q) ∈ l) (h2 : (a, r) ∈ l) : q = r := by
  induction l with
  | nil => simp at h1
  | cons p t ih =>
    obtain ⟨x, s⟩ := p
    rw [List.map_cons, List.nodup_cons] at h
    simp only [List.mem_cons, Prod.mk.injEq] at h1 h2
    rcases h1 with ⟨rfl, rfl⟩ | h1
    · rcases h2 with ⟨-, rfl⟩ | h2
      · rfl
      · exact absurd (List.mem_map_of_mem Prod.fst h2) h.1
    · rcases h2 with ⟨rfl, rfl⟩ | h2
      · exact absurd (List.mem_map_of_mem Prod.fst h1) h.1
      · exact ih h.2 h1 h2

/-- **C1 counterexample**: when the suspect itself is scored below the `0.8`
ring threshold (here `0.5`), `build_subgraph_node` places the suspect in
*both* the fraud-ring set and the innocent set, so the two sets are not
disjoint and the innocent set is not `scoredAccounts \ ringSet` (which would
be empty here). -/
theorem C1_counterexample :
    "acct_s" ∈ (buildPartition "acct_s" [("acct_s", 1/2)]).1 ∧
    "acct_s" ∈ (buildPartition "acct_s" [("acct_s", 1/2)]).2 ∧
    (buildPartition "acct_s" [("acct_s", 1/2)]).2 ≠
      (([("acct_s", (1:ℚ)/2)].map Prod.fst).toFinset \
        (buildPartition "acct_s" [("acct_s", 1/2)]).1) := by
  refine ⟨?_, ?_, ?_⟩
  · rw [mem_buildPartition_fst]
    exact Or.inl rfl
  · rw [mem_buildPartition_snd]
    refine ⟨1/2, by simp, by norm_num [fraud_ring_threshold]⟩
  · intro hcontra
    have hmem : "acct_s" ∈ (buildPartition "acct_s" [("acct_s", 1/2)]).2 := by
      rw [mem_buildPartition_snd]
      exact ⟨1/2, by simp, by norm_num [fraud_ring_threshold]⟩
    rw [hcontra, Finset.mem_sdiff] at hmem
    exact hmem.2 (by rw [mem_buildPartition_fst]; exact Or.inl rfl)

/-- **C1 (amended)**: the final ring set is
`{suspect} ∪ {a : score(a) ≥ 0.8}` and the suspect is always a ring member,
but the innocent set is `{a ∈ scoredAccounts : score(a) < 0.8}` — not
`scoredAccounts \ ringSet`.  The two sets are disjoint (and the innocent set
equals `scoredAccounts \ ringSet`) only under the proviso that the suspect is
not among the scored accounts with score below the threshold; a suspect
scored below 0.8 lands in both sets (see the counterexample). -/
theorem C1_partition (suspect : String) (scores : List (String × ℚ)) :
    (suspect ∈ (buildPartition suspect scores).1) ∧
    (∀ a, a ∈ (buildPartition suspect scores).1 ↔
      a = suspect ∨ ∃ q, (a, q) ∈ scores ∧ q ≥ fraud_ring_threshold) ∧
    (∀ a, a ∈ (buildPartition suspect scores).2 ↔
      ∃ q, (a, q) ∈ scores ∧ ¬ q ≥ fraud_ring_threshold) ∧
    ((∀ q : ℚ, (suspect, q) ∈ scores → q ≥ fraud_ring_threshold) →
      (scores.map Prod.fst).Nodup →
      Disjoint (buildPartition suspect scores).1 (buildPartition suspect scores).2 ∧
      (buildPartition suspect scores).2 =
        (scores.map Prod.fst).toFinset \ (buildPartition suspect scores).1) := by
  refine ⟨?_, mem_buildPartition_fst suspect scores, mem_buildPartition_snd suspect scores,
    ?_⟩
  · rw [mem_buildPartition_fst]
    exact Or.inl rfl
  · intro hsusp hnd
    have hdisj : Disjoint (buildPartition suspect scores).1 (buildPartition suspect scores).2 := by
      rw [Finset.disjoint_left]
      intro a ha hb
      rw [mem_buildPartition_fst] at ha
      rw [mem_buildPartition_snd] at hb
      obtain ⟨r, hrmem, hrlt⟩ := hb
      rcases ha with rfl | ⟨q, hqmem, hqge⟩
      · exact hrlt (hsusp r hrmem)
      · exact hrlt (value_eq_of_nodup_keys hnd hrmem hqmem ▸ hqge)
    refine ⟨hdisj, ?_⟩
    ext a
    rw [mem_buildPartition_snd, Finset.mem_sdiff, List.mem_toFinset, mem_buildPartition_fst]
    constructor
    · rintro ⟨q, hqmem, hqlt⟩
      refine ⟨List.mem_map_of_mem Prod.fst hqmem, ?_⟩
      rintro (rfl | ⟨r, hrmem, hrge⟩)
      · exact hqlt (hsusp q hqmem)
      · exact hqlt (value_eq_of_nodup_keys hnd hqmem hrmem ▸ hrge)
    · rintro ⟨hkeys, hnotring⟩
      rw [List.mem_map] at hkeys
      obtain ⟨⟨x, q⟩, hmem, hx⟩ := hkeys
      subst hx
      refine ⟨q, hmem, fun hge => hnotring (Or.inr ⟨q, hmem, hge⟩)⟩

/-- Concrete scores map for the C1 witness: the suspect at `0.9`, a
neighbor at `0.5`. -/
def c1Scores : List (String × ℚ) := [("acct_s", 9/10), ("acct_b", 1/2)]

/-- Witness for C1 (amended) on a concrete run where the suspect scores
above the threshold: suspect in ring, sets disjoint, innocent = scored \
ring. -/
theorem C1_witness :
    "acct_s" ∈ (buildPartition "acct_s" c1Scores).1 ∧
    Disjoint (buildPartition "acct_s" c1Scores).1 (buildPartition "acct_s" c1Scores).2 ∧
    (buildPartition "acct_s" c1Scores).2 =
      (c1Scores.map Prod.fst).toFinset \ (buildPartition "acct_s" c1Scores).1 := by
  have h := C1_partition "acct_s" c1Scores
  have hsusp : ∀ q : ℚ, ("acct_s", q) ∈ c1Scores → q ≥ fraud_ring_threshold := by
    intro q hq
    simp only [c1Scores, List.mem_cons, List.mem_singleton, Prod.mk.injEq] at hq
    rcases hq with ⟨-, rfl⟩ | ⟨h1, -⟩ | hfalse
    · norm_num [fraud_ring_threshold]
    · exact absurd h1 (by decide)
    · exact absurd hfalse (List.not_mem_nil _)
  have hnd : (c1Scores.map Prod.fst).Nodup := by decide
  exact ⟨h.1, (h.2.2.2 hsusp hnd).1, (h.2.2.2 hsusp hnd).2⟩

/-! ## Graph traversal round (`backend/services/aerospike_graph.py` and
`backend/workflow/nodes/traverse_graph.py`) -/

/-- `NodeInfo` from `workflow/state.py`; the property bag attached by the
backend is irrelevant to identity and budgets and is not modelled.  The
`type` key is called `ntype` (`type` is reserved in Lean). -/
structure NodeInfo where
  id : String
  label : String
  ntype : String
deriving DecidableEq, Repr

/-- `EdgeInfo` from `workflow/state.py` (empty property bag omitted). -/
structure EdgeInfo where
  source : String
  target : String
  edge_type : String
deriving DecidableEq, Repr

/-- Accumulated discovery of one expansion: the `new_nodes` / `new_edges`
lists and the `connected_accounts` / `frontier_accounts` set (kept as an
insertion-ordered duplicate-free list, mirroring the Python `set`). -/
structure RoundAcc where
  nodes : List NodeInfo
  edges : List EdgeInfo
  conn : List String
deriving DecidableEq, Repr

def emptyAcc : RoundAcc := ⟨[], [], []⟩

/-- `set.add`: insert if absent, preserving insertion order. -/
def insertConn (conn : List String) (a : String) : List String :=
  if a ∈ conn then conn else conn ++ [a]

/-- One-hop query results of the external Gremlin backend, per seed account
and per sub-query limit: `deviceRows` / `ipRows` give the
`(device, other_account)` / `(ip, other_account)` pairs produced by the
traversals in `_expand_via_devices` / `_expand_via_ips` (ids already
extracted via `_extract_props_from_map`), `txRows` the deduplicated
transaction partners of `_expand_via_transactions`.  A backend failure on a
seed is modelled by empty rows: the `except` handlers return the partial
local results and the round continues. -/
structure GraphBackend where
  deviceRows : String → Int → List (String × String)
  ipRows : String → Int → List (String × String)
  txRows : String → Int → List String

/-- Processing of one `(infra, other_account)` row by the loops of
`_expand_via_devices` (lines 197-238) and `_expand_via_ips` (lines 284-325):
add the infra node if globally unseen and new in this sub-query, with its
`seed → infra` edge; add the other account if distinct from the seed and
globally unseen, with the `infra → other_account` edge.  Returns the updated
accumulator and the updated local `seen_devices`/`seen_ips` set. -/
def infraRowUpdate (account_id etype ilabel : String) (seen : List String)
    (row : String × String) (seen_infra : List String) (acc : RoundAcc) :
    RoundAcc × List String :=
  let infra_id := row.1
  let other_id := row.2
  let step1 : RoundAcc × List String :=
    if infra_id ∉ seen ∧ infra_id ∉ seen_infra then
      ({ nodes := acc.nodes ++ [⟨infra_id, ilabel, ilabel⟩]
         edges := acc.edges ++ [⟨account_id, infra_id, etype⟩]
         conn := acc.conn }, seen_infra ++ [infra_id])
    else (acc, seen_infra)
  if other_id ≠ account_id ∧ other_id ∉ seen then
    ({ nodes := step1.1.nodes ++ [⟨other_id, "account", "connected"⟩]
       edges := step1.1.edges ++ [⟨infra_id, other_id, etype⟩]
       conn := insertConn step1.1.conn other_id }, step1.2)
  else step1

/-- The row loop of `_expand_via_devices` / `_expand_via_ips`, with the
`if len(nodes) >= limit: break` check at the end of each iteration (the
count compared is the sub-query's local node list). -/
def infraLoop (account_id etype ilabel : String) (seen : List String) (limit : Int) :
    List (String × String) → List String → RoundAcc → RoundAcc
  | [], _, acc => acc
  | row :: rest, seen_infra, acc =>
    let u := infraRowUpdate account_id etype ilabel seen row seen_infra acc
    if (u.1.nodes.length : Int) ≥ limit then u.1
    else infraLoop account_id etype ilabel seen limit rest u.2 u.1

/-- The partner loop of `_expand_via_transactions` (lines 364-382): add each
partner distinct from the seed and globally unseen, with a
`seed → partner` TRANSACTS edge.  The source has no in-loop break here. -/
def txLoop (account_id : String) (seen : List String) :
    List String → RoundAcc → RoundAcc
  | [], acc => acc
  | other_id :: rest, acc =>
    let acc1 :=
      if other_id ≠ account_id ∧ other_id ∉ seen then
        { nodes := acc.nodes ++ [⟨other_id, "account", "connected"⟩]
          edges := acc.edges ++ [⟨account_id, other_id, "TRANSACTS"⟩]
          conn := insertConn acc.conn other_id }
      else acc
    txLoop account_id seen rest acc1

/-- `_expand_via_devices`: local lists start empty for each sub-query. -/
def expandViaDevices (backend : GraphBackend) (account_id : String)
    (seen : List String) (limit : Int) : RoundAcc :=
  infraLoop account_id "USES_DEVICE" "device" seen limit
    (backend.deviceRows account_id limit) [] emptyAcc

/-- `_expand_via_ips`: local lists start empty for each sub-query. -/
def expandViaIps (backend : GraphBackend) (account_id : String)
    (seen : List String) (limit : Int) : RoundAcc :=
  infraLoop account_id "USES_IP" "ip" seen limit
    (backend.ipRows account_id limit) [] emptyAcc

/-- `_expand_via_transactions`. -/
def expandViaTransactions (backend : GraphBackend) (account_id : String)
    (seen : List String) (limit : Int) : RoundAcc :=
  txLoop account_id seen (backend.txRows account_id limit) emptyAcc

/-- `expand_graph` lines 126-146: `new_nodes.extend(...)`,
`new_edges.extend(...)`, `frontier_accounts.update(...)`. -/
def mergeAcc (acc sub : RoundAcc) : RoundAcc :=
  { nodes := acc.nodes ++ sub.nodes
    edges := acc.edges ++ sub.edges
    conn := sub.conn.foldl insertConn acc.conn }

/-- The per-seed body of the `expand_graph` loop (lines 117-146): one
sub-query per requested edge-type class, each bounded by the remaining node
budget `node_limit - len(new_nodes)` at the time of the call. -/
def seedStep (backend : GraphBackend) (edge_types : List String) (node_limit : Int)
    (seen : List String) (acc : RoundAcc) (account_id : String) : RoundAcc :=
  let acc1 :=
    if "device" ∈ edge_types then
      mergeAcc acc
        (expandViaDevices backend account_id seen (node_limit - acc.nodes.length))
    else acc
  let acc2 :=
    if "ip" ∈ edge_types then
      mergeAcc acc1
        (expandViaIps backend account_id seen (node_limit - acc1.nodes.length))
    else acc1
  if "tx" ∈ edge_types then
    mergeAcc acc2
      (expandViaTransactions backend account_id seen (node_limit - acc2.nodes.length))
  else acc2

/-- The seed loop of `expand_graph` (lines 117-146), with the
`if len(new_nodes) >= node_limit: break` check at the top of each
iteration. -/
def expandSeedsLoop (backend : GraphBackend) (edge_types : List String)
    (node_limit : Int) (seen : List String) :
    List String → RoundAcc → RoundAcc
  | [], acc => acc
  | aid :: rest, acc =>
    if (acc.nodes.length : Int) ≥ node_limit then acc
    else expandSeedsLoop backend edge_types node_limit seen rest
      (seedStep backend edge_types node_limit seen acc aid)

/-- Everything one round discovers, before the returned lists are truncated
to `node_limit` / `edge_limit` (lines 112-150 of `expand_graph`). -/
def discoveredAcc (backend : GraphBackend) (seed_accounts edge_types : List String)
    (node_limit : Nat) (seen_nodes : List String) : RoundAcc :=
  expandSeedsLoop backend edge_types (node_limit : Int) seen_nodes seed_accounts emptyAcc

/-- Line 153: `estimated_cost = len(new_nodes)/100.0 + len(new_edges)/200.0`,
computed on the *discovered* lists. -/
def trafficCost (nodes edges : Nat) : ℚ := (nodes : ℚ) / 100 + (edges : ℚ) / 200

/-- Return value of `expand_graph`. -/
structure ExpandResult where
  nodes : List NodeInfo
  edges : List EdgeInfo
  frontier_accounts : List String
  estimated_cost : ℚ
deriving DecidableEq, Repr

/-- `AerospikeGraphService.expand_graph` (lines 69-161): run the seed loop,
remove seed accounts and seen nodes from the frontier, compute the cost on
the discovered lists, and truncate the returned node/edge lists to
`node_limit` / `edge_limit`. -/
def expand_graph (backend : GraphBackend) (seed_accounts edge_types : List String)
    (node_limit edge_limit : Nat) (seen_nodes : List String) : ExpandResult :=
  let acc := discoveredAcc backend seed_accounts edge_types node_limit seen_nodes
  { nodes := acc.nodes.take node_limit
    edges := acc.edges.take edge_limit
    frontier_accounts :=
      (acc.conn.filter fun a => a ∉ seed_accounts).filter fun a => a ∉ seen_nodes
    estimated_cost := trafficCost acc.nodes.length acc.edges.length }

/-- `traverse_graph_node` lines 64-66: the node budget passed to the graph
tool is `max(10, max_nodes - len(seen_nodes))`. -/
def remainingNodeBudget (max_nodes : Int) (seen_nodes : List String) : Int :=
  max 10 (max_nodes - seen_nodes.length)

/-- **C10**: the node limit passed to expansion is
`max(10, max_nodes - |seen|)`: it is always at least 10, and is exactly 10
once the seen-node count reaches `max_nodes` — so traversal can keep adding
nodes beyond the configured `max_nodes` cap. -/
theorem C10_node_budget_floor (max_nodes : Int) (seen_nodes : List String) :
    remainingNodeBudget max_nodes seen_nodes =
      max 10 (max_nodes - seen_nodes.length) ∧
    10 ≤ remainingNodeBudget max_nodes seen_nodes ∧
    (max_nodes ≤ seen_nodes.length →
      remainingNodeBudget max_nodes seen_nodes = 10) := by
  refine ⟨rfl, le_max_left _ _, fun h => ?_⟩
  unfold remainingNodeBudget
  exact max_eq_left (by omega)

/-- Witness for C10: with `max_nodes = 2` already exceeded by three seen
nodes, the budget is still 10. -/
theorem C10_witness :
    10 ≤ remainingNodeBudget 2 ["n1", "n2", "n3"] ∧
    remainingNodeBudget 2 ["n1", "n2", "n3"] = 10 := by
  have h := C10_node_budget_floor 2 ["n1", "n2", "n3"]
  exact ⟨h.2.1, h.2.2 (by norm_num)⟩

/-- Backend for the C5 counterexample: seeds `A` and `B` both reach account
`acct_x` through the same device `dev_d`. -/
def c5Backend : GraphBackend :=
  { deviceRows := fun aid _ =>
      if aid = "A" ∨ aid = "B" then [("dev_d", "acct_x")] else []
    ipRows := fun _ _ => []
    txRows := fun _ _ => [] }

/-- **C5 counterexample**: in a single round (empty seen set), two seeds
that rediscover the same device and account produce duplicate node entries
(`acct_x` and `dev_d` each appear twice) and the identical
`(dev_d, acct_x, USES_DEVICE)` edge triple is added twice — in-round
deduplication across seed accounts does not happen. -/
theorem C5_counterexample :
    ((expand_graph c5Backend ["A", "B"] ["device"] 10 10 []).nodes.map (·.id)).count
        "acct_x" = 2 ∧
    ((expand_graph c5Backend ["A", "B"] ["device"] 10 10 []).nodes.map (·.id)).count
        "dev_d" = 2 ∧
    (expand_graph c5Backend ["A", "B"] ["device"] 10 10 []).edges.count
        ⟨"dev_d", "acct_x", "USES_DEVICE"⟩ = 2 := by
  refine ⟨?_, ?_, ?_⟩ <;> rfl

lemma infraRowUpdate_nodes_not_seen (account_id etype ilabel : String)
    (seen : List String) (row : String × String) (seen_infra : List String)
    (acc : RoundAcc) (hacc : ∀ n ∈ acc.nodes, n.id ∉ seen) :
    ∀ n ∈ (infraRowUpdate account_id etype ilabel seen row seen_infra acc).1.nodes,
      n.id ∉ seen := by
  unfold infraRowUpdate
  dsimp only
  split_ifs with h1 h2 h2 <;> intro n hn <;>
    simp only [List.mem_append, List.mem_singleton] at hn
  · rcases hn with (hn | rfl) | rfl
    · exact hacc n hn
    · exact h2.1
    · exact h1.2
  · rcases hn with hn | rfl
    · exact hacc n hn
    · exact h1.2
  · rcases hn with hn | rfl
    · exact hacc n hn
    · exact h2.1
  · exact hacc n hn

lemma infraLoop_nodes_not_seen (account_id etype ilabel : String)
    (seen : List String) (limit : Int) :
    ∀ (rows : List (String × String)) (seen_infra : List String) (acc : RoundAcc),
    (∀ n ∈ acc.nodes, n.id ∉ seen) →
    ∀ n ∈ (infraLoop account_id etype ilabel seen limit rows seen_infra acc).nodes,
      n.id ∉ seen := by
  intro rows
  induction rows with
  | nil =>
    intro seen_infra acc hacc
    exact hacc
  | cons row rest ih =>
    intro seen_infra acc hacc
    rw [infraLoop]
    have hu := infraRowUpdate_nodes_not_seen account_id etype ilabel seen row
      seen_infra acc hacc
    split_ifs
    · exact hu
    · exact ih _ _ hu

lemma txLoop_nodes_not_seen (account_id : String) (seen : List String) :
    ∀ (rows : List String) (acc : RoundAcc),
    (∀ n ∈ acc.nodes, n.id ∉ seen) →
    ∀ n ∈ (txLoop account_id seen rows acc).nodes, n.id ∉ seen := by
  intro rows
  induction rows with
  | nil =>
    intro acc hacc
    exact hacc
  | cons other_id rest ih =>
    intro acc hacc
    rw [txLoop]
    refine ih _ ?_
    split_ifs with h
    · intro n hn
      simp only [List.mem_append, List.mem_singleton] at hn
      rcases hn with hn | rfl
      · exact hacc n hn
      · exact h.2
    · exact hacc

lemma mergeAcc_nodes_not_seen {seen : List String} {acc sub : RoundAcc}
    (hacc : ∀ n ∈ acc.nodes, n.id ∉ seen) (hsub : ∀ n ∈ sub.nodes, n.id ∉ seen) :
    ∀ n ∈ (mergeAcc acc sub).nodes, n.id ∉ seen := by
  intro n hn
  rcases List.mem_append.1 hn with h | h
  · exact hacc n h
  · exact hsub n h

lemma seedStep_nodes_not_seen (backend : GraphBackend) (edge_types : List String)
    (node_limit : Int) (seen : List String) (acc : RoundAcc) (account_id : String)
    (hacc : ∀ n ∈ acc.nodes, n.id ∉ seen) :
    ∀ n ∈ (seedStep backend edge_types node_limit seen acc account_id).nodes,
      n.id ∉ seen := by
  unfold seedStep
  have hdev : ∀ (lim : Int),
      ∀ n ∈ (expandViaDevices backend account_id seen lim).nodes, n.id ∉ seen :=
    fun lim => infraLoop_nodes_not_seen account_id "USES_DEVICE" "device" seen lim
      (backend.deviceRows account_id lim) [] emptyAcc (by intro n hn; simp [emptyAcc] at hn)
  have hip : ∀ (lim : Int),
      ∀ n ∈ (expandViaIps backend account_id seen lim).nodes, n.id ∉ seen :=
    fun lim => infraLoop_nodes_not_seen account_id "USES_IP" "ip" seen lim
      (backend.ipRows account_id lim) [] emptyAcc (by intro n hn; simp [emptyAcc] at hn)
  have htx : ∀ (lim : Int),
      ∀ n ∈ (expandViaTransactions backend account_id seen lim).nodes, n.id ∉ seen :=
    fun lim => txLoop_nodes_not_seen account_id seen
      (backend.txRows account_id lim) emptyAcc (by intro n hn; simp [emptyAcc] at hn)
  split_ifs <;>
    first
      | exact mergeAcc_nodes_not_seen
          (mergeAcc_nodes_not_seen (mergeAcc_nodes_not_seen hacc (hdev _)) (hip _)) (htx _)
      | exact mergeAcc_nodes_not_seen (mergeAcc_nodes_not_seen hacc (hdev _)) (hip _)
      | exact mergeAcc_nodes_not_seen (mergeAcc_nodes_not_seen hacc (hdev _)) (htx _)
      | exact mergeAcc_nodes_not_seen (mergeAcc_nodes_not_seen hacc (hip _)) (htx _)
      | exact mergeAcc_nodes_not_seen hacc (hdev _)
      | exact mergeAcc_nodes_not_seen hacc (hip _)
      | exact mergeAcc_nodes_not_seen hacc (htx _)
      | exact hacc

lemma expandSeedsLoop_nodes_not_seen (backend : GraphBackend)
    (edge_types : List String) (node_limit : Int) (seen : List String) :
    ∀ (seeds : List String) (acc : RoundAcc),
    (∀ n ∈ acc.nodes, n.id ∉ seen) →
    ∀ n ∈ (expandSeedsLoop backend edge_types node_limit seen seeds acc).nodes,
      n.id ∉ seen := by
  intro seeds
  induction seeds with
  | nil =>
    intro acc hacc
    exact hacc
  | cons aid rest ih =>
    intro acc hacc
    rw [expandSeedsLoop]
    split_ifs
    · exact hacc
    · exact ih _ (seedStep_nodes_not_seen backend edge_types node_limit seen acc aid hacc)

/-- **C5 (amended)**: one round's returned node list never contains a node
whose id is in the seen set — so a node id already accumulated in earlier
rounds (and hence in `seen_nodes`) is never re-added.  Deduplication *within*
a round is weaker than claimed: device/ip nodes are deduplicated only inside
a single seed's sub-query, account nodes only against `seen`, and the same
`(source, target, edge_type)` triple can be appended twice in one round
(see the counterexample). -/
theorem C5_cross_round_dedup (backend : GraphBackend)
    (seed_accounts edge_types : List String) (node_limit edge_limit : Nat)
    (seen_nodes : List String) :
    ∀ n ∈ (expand_graph backend seed_accounts edge_types node_limit edge_limit
      seen_nodes).nodes, n.id ∉ seen_nodes := by
  intro n hn
  have hsub : n ∈ (discoveredAcc backend seed_accounts edge_types node_limit
      seen_nodes).nodes := List.take_subset _ _ hn
  exact expandSeedsLoop_nodes_not_seen backend edge_types (node_limit : Int)
    seen_nodes seed_accounts emptyAcc (by intro m hm; simp [emptyAcc] at hm) n hsub

/-- Backend for the C5/C6 witnesses: one seed, one device row leading to a
fresh account, with one node id (`seen_1`) already seen. -/
def c5wBackend : GraphBackend :=
  { deviceRows := fun aid _ => if aid = "A" then [("dev_1", "acct_n")] else []
    ipRows := fun _ _ => []
    txRows := fun _ _ => [] }

/-- Witness for C5 (amended) on a concrete round: the returned device node
is present and its id avoids the seen set. -/
theorem C5_witness :
    (⟨"dev_1", "device", "device"⟩ : NodeInfo) ∈
      (expand_graph c5wBackend ["A"] ["device"] 10 10 ["seen_1"]).nodes ∧
    ("dev_1" : String) ∉ ["seen_1"] := by
  have hmem : (⟨"dev_1", "device", "device"⟩ : NodeInfo) ∈
      (expand_graph c5wBackend ["A"] ["device"] 10 10 ["seen_1"]).nodes := by
    decide
  exact ⟨hmem, C5_cross_round_dedup c5wBackend ["A"] ["device"] 10 10 ["seen_1"]
    ⟨"dev_1", "device", "device"⟩ hmem⟩

/-- Backend for the C6 counterexample: seed `A` has six devices; the first
row's partner is `A` itself, so eleven nodes are discovered against a node
limit of ten (the in-loop break only fires after a row added two nodes). -/
def c6Backend : GraphBackend :=
  { deviceRows := fun aid _ =>
      if aid = "A" then
        [("d1", "A"), ("d2", "x2"), ("d3", "x3"), ("d4", "x4"), ("d5", "x5"),
          ("d6", "x6")]
      else []
    ipRows := fun _ _ => []
    txRows := fun _ _ => [] }

/-- **C6 counterexample**: the cost is computed on the discovered lists
*before* truncation to `node_limit`, so it can exceed what the returned
node and edge lists account for: here eleven nodes and eleven edges are
discovered (cost `11/100 + 11/200 = 33/200`) but only ten nodes are
returned, and `33/200 ≠ 10/100 + 11/200`. -/
theorem C6_counterexample :
    (expand_graph c6Backend ["A"] ["device"] 10 100 []).estimated_cost = 33 / 200 ∧
    (expand_graph c6Backend ["A"] ["device"] 10 100 []).nodes.length = 10 ∧
    (expand_graph c6Backend ["A"] ["device"] 10 100 []).edges.length = 11 ∧
    (33 / 200 : ℚ) ≠ (10 : ℚ) / 100 + (11 : ℚ) / 200 ∧
    (33 / 200 : ℚ) > (10 : ℚ) / 100 + (11 : ℚ) / 200 := by
  have hc : (expand_graph c6Backend ["A"] ["device"] 10 100 []).estimated_cost =
      trafficCost 11 11 := by rfl
  refine ⟨?_, by rfl, by rfl, by norm_num, by norm_num⟩
  rw [hc]
  norm_num [trafficCost]

lemma trafficCost_eq_zero_iff (nodes edges : Nat) :
    trafficCost nodes edges = 0 ↔ nodes = 0 ∧ edges = 0 := by
  unfold trafficCost
  constructor
  · intro h
    have hn : (0 : ℚ) ≤ (nodes : ℚ) := Nat.cast_nonneg nodes
    have he : (0 : ℚ) ≤ (edges : ℚ) := Nat.cast_nonneg edges
    have hn0 : (nodes : ℚ) = 0 := by linarith
    have he0 : (edges : ℚ) = 0 := by linarith
    exact ⟨Nat.cast_eq_zero.1 hn0, Nat.cast_eq_zero.1 he0⟩
  · rintro ⟨rfl, rfl⟩
    norm_num

/-- **C6 (amended)**: the round's cost is
`|discoveredNodes| / 100 + |discoveredEdges| / 200` computed over the
*discovered* lists, before truncation to the node/edge limits.  It is zero
exactly when nothing new is discovered (and then the returned lists are
empty too), it is monotone in the discovered volume, and it coincides with
the claimed returned-volume formula whenever the discovery fits within the
limits — but can exceed the returned volume under truncation (see the
counterexample). -/
theorem C6_cost_model (backend : GraphBackend) (seed_accounts edge_types : List String)
    (node_limit edge_limit : Nat) (seen_nodes : List String) :
    ((expand_graph backend seed_accounts edge_types node_limit edge_limit
        seen_nodes).estimated_cost =
      trafficCost (discoveredAcc backend seed_accounts edge_types node_limit
        seen_nodes).nodes.length
        (discoveredAcc backend seed_accounts edge_types node_limit
          seen_nodes).edges.length) ∧
    ((expand_graph backend seed_accounts edge_types node_limit edge_limit
        seen_nodes).estimated_cost = 0 ↔
      (discoveredAcc backend seed_accounts edge_types node_limit
        seen_nodes).nodes = [] ∧
      (discoveredAcc backend seed_accounts edge_types node_limit
        seen_nodes).edges = []) ∧
    ((expand_graph backend seed_accounts edge_types node_limit edge_limit
        seen_nodes).estimated_cost = 0 →
      (expand_graph backend seed_accounts edge_types node_limit edge_limit
        seen_nodes).nodes = [] ∧
      (expand_graph backend seed_accounts edge_types node_limit edge_limit
        seen_nodes).edges = []) ∧
    ((discoveredAcc backend seed_accounts edge_types node_limit
        seen_nodes).nodes.length ≤ node_limit →
      (discoveredAcc backend seed_accounts edge_types node_limit
        seen_nodes).edges.length ≤ edge_limit →
      (expand_graph backend seed_accounts edge_types node_limit edge_limit
        seen_nodes).estimated_cost =
        trafficCost (expand_graph backend seed_accounts edge_types node_limit
          edge_limit seen_nodes).nodes.length
          (expand_graph backend seed_accounts edge_types node_limit edge_limit
            seen_nodes).edges.length) ∧
    (∀ n₁ e₁ n₂ e₂ : Nat, n₁ ≤ n₂ → e₁ ≤ e₂ →
      trafficCost n₁ e₁ ≤ trafficCost n₂ e₂) := by
  refine ⟨rfl, ?_, ?_, ?_, ?_⟩
  · rw [show (expand_graph backend seed_accounts edge_types node_limit edge_limit
        seen_nodes).estimated_cost =
      trafficCost (discoveredAcc backend seed_accounts edge_types node_limit
        seen_nodes).nodes.length
        (discoveredAcc backend seed_accounts edge_types node_limit
          seen_nodes).edges.length from rfl]
    rw [trafficCost_eq_zero_iff]
    rw [List.length_eq_zero, List.length_eq_zero]
  · intro h
    rw [show (expand_graph backend seed_accounts edge_types node_limit edge_limit
        seen_nodes).estimated_cost =
      trafficCost (discoveredAcc backend seed_accounts edge_types node_limit
        seen_nodes).nodes.length
        (discoveredAcc backend seed_accounts edge_types node_limit
          seen_nodes).edges.length from rfl] at h
    rw [trafficCost_eq_zero_iff] at h
    obtain ⟨hn, he⟩ := h
    rw [List.length_eq_zero] at hn he
    constructor
    · show (discoveredAcc backend seed_accounts edge_types node_limit
        seen_nodes).nodes.take node_limit = []
      rw [hn]
      exact List.take_nil
    · show (discoveredAcc backend seed_accounts edge_types node_limit
        seen_nodes).edges.take edge_limit = []
      rw [he]
      exact List.take_nil
  · intro hn he
    show trafficCost _ _ = trafficCost _ _
    rw [show (expand_graph backend seed_accounts edge_types node_limit edge_limit
        seen_nodes).nodes = (discoveredAcc backend seed_accounts edge_types
          node_limit seen_nodes).nodes.take node_limit from rfl]
    rw [show (expand_graph backend seed_accounts edge_types node_limit edge_limit
        seen_nodes).edges = (discoveredAcc backend seed_accounts edge_types
          node_limit seen_nodes).edges.take edge_limit from rfl]
    rw [List.take_of_length_le hn, List.take_of_length_le he]
  · intro n₁ e₁ n₂ e₂ h1 h2
    unfold trafficCost
    have c1 : (n₁ : ℚ) ≤ (n₂ : ℚ) := Nat.cast_le.2 h1
    have c2 : (e₁ : ℚ) ≤ (e₂ : ℚ) := Nat.cast_le.2 h2
    have d1 : (n₁ : ℚ) / 100 ≤ (n₂ : ℚ) / 100 := by linarith
    have d2 : (e₁ : ℚ) / 200 ≤ (e₂ : ℚ) / 200 := by linarith
    linarith

/-- Witness for C6 at a concrete round without truncation: two nodes and
two edges discovered, cost `2/100 + 2/200`, matching the returned lists. -/
theorem C6_witness :
    (expand_graph c5wBackend ["A"] ["device"] 10 10 ["seen_1"]).estimated_cost =
      trafficCost (expand_graph c5wBackend ["A"] ["device"] 10 10
        ["seen_1"]).nodes.length
        (expand_graph c5wBackend ["A"] ["device"] 10 10 ["seen_1"]).edges.length ∧
    trafficCost 1 1 ≤ trafficCost 2 2 := by
  have h := C6_cost_model c5wBackend ["A"] ["device"] 10 10 ["seen_1"]
  exact ⟨h.2.2.2.1 (by decide) (by decide), h.2.2.2.2 1 1 2 2 (by norm_num) (by norm_num)⟩

/-! ## Evidence aggregation (`backend/tools/evidence_tool.py`) -/

/-- The endpoint-resolution loop inside `_analyze_shared_devices` /
`_analyze_shared_ips` (lines 148-157 / 190-197): scan the device/ip node
list; the last node matching an endpoint decides which endpoint is the
infrastructure node and which the account. -/
def findInfraEnd (infra_nodes : List NodeInfo) (source target : String) :
    Option (String × String) :=
  infra_nodes.foldl
    (fun acc n =>
      if n.id = source then some (source, target)
      else if n.id = target then some (target, source)
      else acc)
    none

/-- The per-edge contribution test (lines 143-160 / 185-201): an edge of the
requested type whose resolved account endpoint is a ring member contributes
one count to its resolved infrastructure node. -/
def edgeHit (etype : String) (infra_nodes : List NodeInfo)
    (ring_accounts : List String) (e : EdgeInfo) : Option String :=
  if e.edge_type = etype then
    match findInfraEnd infra_nodes e.source e.target with
    | some (iid, aid) => if aid ∈ ring_accounts then some iid else none
    | none => none
  else none

/-- First-occurrence key order of the Python `Counter`. -/
def keysInOrder (hits : List String) : List String :=
  hits.foldl (fun ks h => if h ∈ ks then ks else ks ++ [h]) []

/-- What the code accumulates per device/ip: the number of `etype` *edges*
whose resolved endpoint pair is (`iid`, ring member). -/
def ringEdgeCount (etype : String) (infra_nodes : List NodeInfo)
    (ring_accounts : List String) (iid : String) (edges : List EdgeInfo) : Nat :=
  (edges.filter fun e => edgeHit etype infra_nodes ring_accounts e = some iid).length

/-- `_analyze_shared_devices` (`ilabel` "device", `etype` "USES_DEVICE") and
`_analyze_shared_ips` (`ilabel` "ip", `etype` "USES_IP"), lines 129-209:
count ring-adjacent edges per device/ip, keep counts ≥ 2, sort descending by
count (Python's stable sort), and pair the table with its top entry. -/
def analyzeShared (etype ilabel : String) (ring_accounts : List String)
    (nodes : List NodeInfo) (edges : List EdgeInfo) :
    List (String × Nat) × Option (String × Nat) :=
  let infra_nodes := nodes.filter fun n => n.label = ilabel
  let hits := edges.filterMap (edgeHit etype infra_nodes ring_accounts)
  let usage := (keysInOrder hits).map fun k => (k, hits.count k)
  let shared := usage.filter fun p => p.2 ≥ 2
  let sortedShared := shared.mergeSort fun a b => b.2 ≤ a.2
  (sortedShared, sortedShared.head?)

/-- Modelled from the spec: "for each device/ip node, count how many
ring-member accounts connect to it" — the number of *distinct* ring-member
account ids adjacent to `iid` through edges of the given type.  Stated for
comparison with the per-edge counting the code performs. -/
def specDistinctRingUsers (etype iid : String) (ring_accounts : List String)
    (edges : List EdgeInfo) : Nat :=
  (((edges.filterMap fun e =>
      if e.edge_type = etype then
        if e.source = iid then some e.target
        else if e.target = iid then some e.source
        else none
      else none).dedup).filter fun a => a ∈ ring_accounts).length

/-- **C9 counterexample**: a single ring member `acct_a` linked to device
`dev_d` by two edge entries (one in each direction, as the traversal
accumulates them) is counted twice: the device is reported as shared with
count 2 even though only one distinct ring account connects to it — the
code counts connecting edges, not distinct ring-member accounts. -/
theorem C9_counterexample :
    (analyzeShared "USES_DEVICE" "device" ["acct_a"]
      [⟨"dev_d", "device", "device"⟩]
      [⟨"acct_a", "dev_d", "USES_DEVICE"⟩, ⟨"dev_d", "acct_a", "USES_DEVICE"⟩]).2 =
      some ("dev_d", 2) ∧
    specDistinctRingUsers "USES_DEVICE" "dev_d" ["acct_a"]
      [⟨"acct_a", "dev_d", "USES_DEVICE"⟩, ⟨"dev_d", "acct_a", "USES_DEVICE"⟩] = 1 := by
  constructor
  · show (List.mergeSort [("dev_d", 2)] _).head? = some ("dev_d", 2)
    rw [List.mergeSort_singleton]
    rfl
  · rfl

lemma count_filterMap_eq {α β : Type} [DecidableEq β] (f : α → Option β) (b : β) :
    ∀ l : List α, ((l.filterMap f).count b) =
      (l.filter fun a => f a = some b).length := by
  intro l
  induction l with
  | nil => rfl
  | cons x t ih =>
    rw [List.filterMap_cons, List.filter_cons]
    cases hx : f x with
    | none =>
      rw [if_neg (by simp)]
      exact ih
    | some y =>
      by_cases hby : y = b
      · subst hby
        rw [if_pos (by simp), List.count_cons_self, List.length_cons, ih]
      · rw [if_neg (by simpa using hby), List.count_cons_of_ne (Ne.symm hby), ih]

lemma mem_keysInOrder_aux :
    ∀ (l acc : List String) (a : String),
    (a ∈ l.foldl (fun ks h => if h ∈ ks then ks else ks ++ [h]) acc ↔
      a ∈ acc ∨ a ∈ l) := by
  intro l
  induction l with
  | nil =>
    intro acc a
    simp
  | cons x t ih =>
    intro acc a
    rw [List.foldl_cons]
    by_cases hx : x ∈ acc
    · rw [if_pos hx, ih]
      simp only [List.mem_cons]
      constructor
      · rintro (h | h)
        · exact Or.inl h
        · exact Or.inr (Or.inr h)
      · rintro (h | rfl | h)
        · exact Or.inl h
        · exact Or.inl hx
        · exact Or.inr h
    · rw [if_neg hx, ih]
      simp only [List.mem_append, List.mem_cons, List.not_mem_nil, or_false]
      constructor
      · rintro ((h | rfl) | h)
        · exact Or.inl h
        · exact Or.inr (Or.inl rfl)
        · exact Or.inr (Or.inr h)
      · rintro (h | rfl | h)
        · exact Or.inl (Or.inl h)
        · exact Or.inl (Or.inr rfl)
        · exact Or.inr h

lemma mem_keysInOrder (hits : List String) (a : String) :
    a ∈ keysInOrder hits ↔ a ∈ hits := by
  unfold keysInOrder
  rw [mem_keysInOrder_aux]
  simp

/-- **C9 (amended)**: the shared-device / shared-ip tables record, per
device/ip node, the number of ring-adjacent *edges* of the relevant type —
not the number of distinct ring-member accounts (see the counterexample,
where a single account connected twice yields count 2).  Entries with count
≥ 2 are kept: every table entry carries its edge count and is ≥ 2, every
infrastructure node hit by some edge and whose edge count is ≥ 2 appears,
the table is sorted descending by count, and the reported top entry is its
head. -/
theorem C9_shared_tables (etype ilabel : String) (ring_accounts : List String)
    (nodes : List NodeInfo) (edges : List EdgeInfo) :
    (∀ p ∈ (analyzeShared etype ilabel ring_accounts nodes edges).1,
      p.2 = ringEdgeCount etype (nodes.filter fun n => n.label = ilabel)
        ring_accounts p.1 edges ∧ 2 ≤ p.2) ∧
    (∀ iid : String,
      (∃ e ∈ edges, edgeHit etype (nodes.filter fun n => n.label = ilabel)
        ring_accounts e = some iid) →
      2 ≤ ringEdgeCount etype (nodes.filter fun n => n.label = ilabel)
        ring_accounts iid edges →
      (iid, ringEdgeCount etype (nodes.filter fun n => n.label = ilabel)
        ring_accounts iid edges) ∈
        (analyzeShared etype ilabel ring_accounts nodes edges).1) ∧
    ((analyzeShared etype ilabel ring_accounts nodes edges).1.Pairwise
      fun a b => b.2 ≤ a.2) ∧
    ((analyzeShared etype ilabel ring_accounts nodes edges).2 =
      (analyzeShared etype ilabel ring_accounts nodes edges).1.head?) := by
  refine ⟨?_, ?_, ?_, rfl⟩
  · intro p hp
    rw [show (analyzeShared etype ilabel ring_accounts nodes edges).1 =
      (((keysInOrder (edges.filterMap (edgeHit etype
          (nodes.filter fun n => n.label = ilabel) ring_accounts))).map
        fun k => (k, (edges.filterMap (edgeHit etype
          (nodes.filter fun n => n.label = ilabel) ring_accounts)).count k)).filter
        fun p => p.2 ≥ 2).mergeSort (fun a b => b.2 ≤ a.2) from rfl] at hp
    rw [List.mem_mergeSort] at hp
    have hp2 := List.of_mem_filter hp
    have hp1 := List.mem_of_mem_filter hp
    rw [List.mem_map] at hp1
    obtain ⟨k, -, rfl⟩ := hp1
    refine ⟨?_, by simpa using hp2⟩
    show (edges.filterMap _).count k = _
    rw [count_filterMap_eq]
    rfl
  · intro iid hhit hcnt
    rw [show (analyzeShared etype ilabel ring_accounts nodes edges).1 =
      (((keysInOrder (edges.filterMap (edgeHit etype
          (nodes.filter fun n => n.label = ilabel) ring_accounts))).map
        fun k => (k, (edges.filterMap (edgeHit etype
          (nodes.filter fun n => n.label = ilabel) ring_accounts)).count k)).filter
        fun p => p.2 ≥ 2).mergeSort (fun a b => b.2 ≤ a.2) from rfl]
    rw [List.mem_mergeSort]
    have hcount : (edges.filterMap (edgeHit etype
        (nodes.filter fun n => n.label = ilabel) ring_accounts)).count iid =
        ringEdgeCount etype (nodes.filter fun n => n.label = ilabel)
          ring_accounts iid edges := by
      rw [count_filterMap_eq]
      rfl
    have hmemhits : iid ∈ edges.filterMap (edgeHit etype
        (nodes.filter fun n => n.label = ilabel) ring_accounts) := by
      rw [List.mem_filterMap]
      obtain ⟨e, he, heq⟩ := hhit
      exact ⟨e, he, heq⟩
    refine List.mem_filter.2 ⟨?_, ?_⟩
    · rw [List.mem_map]
      refine ⟨iid, ?_, ?_⟩
      · rw [mem_keysInOrder]
        exact hmemhits
      · rw [hcount]
    · simpa [hcount] using hcnt
  · have hs := @List.sorted_mergeSort (String × Nat)
      (fun a b => decide (b.2 ≤ a.2))
      (fun a b c h1 h2 => by
        simp only [decide_eq_true_eq] at h1 h2 ⊢
        omega)
      (fun a b => by
        simp only [Bool.or_eq_true, decide_eq_true_eq]
        omega)
      (((keysInOrder (edges.filterMap (edgeHit etype
          (nodes.filter fun n => n.label = ilabel) ring_accounts))).map
        fun k => (k, (edges.filterMap (edgeHit etype
          (nodes.filter fun n => n.label = ilabel) ring_accounts)).count k)).filter
        fun p => p.2 ≥ 2)
    have : (analyzeShared etype ilabel ring_accounts nodes edges).1.Pairwise
        (fun a b => decide (b.2 ≤ a.2) = true) := hs
    refine this.imp ?_
    intro a b h
    simpa using h

/-- Nodes for the C9 witness: one device. -/
def c9Nodes : List NodeInfo := [⟨"dev_w", "device", "device"⟩]

/-- Edges for the C9 witness: two distinct ring members each connected to
the device by one edge. -/
def c9Edges : List EdgeInfo :=
  [⟨"r1", "dev_w", "USES_DEVICE"⟩, ⟨"dev_w", "r2", "USES_DEVICE"⟩]

/-- Witness for C9 (amended) on a concrete subgraph: the device connected to
two ring members by one edge each appears in the table with count 2 (which
here coincides with its edge count) and is the reported top entry. -/
theorem C9_witness :
    ("dev_w", 2) ∈ (analyzeShared "USES_DEVICE" "device" ["r1", "r2"]
      c9Nodes c9Edges).1 ∧
    2 = ringEdgeCount "USES_DEVICE" (c9Nodes.filter fun n => n.label = "device")
      ["r1", "r2"] "dev_w" c9Edges ∧
    (analyzeShared "USES_DEVICE" "device" ["r1", "r2"] c9Nodes c9Edges).2 =
      some ("dev_w", 2) := by
  have hmem : ("dev_w", 2) ∈ (analyzeShared "USES_DEVICE" "device" ["r1", "r2"]
      c9Nodes c9Edges).1 := by
    show ("dev_w", 2) ∈ List.mergeSort [("dev_w", 2)] _
    rw [List.mergeSort_singleton]
    exact List.mem_singleton_self _
  have h := (C9_shared_tables "USES_DEVICE" "device" ["r1", "r2"]
    c9Nodes c9Edges).1 ("dev_w", 2) hmem
  refine ⟨hmem, h.1, ?_⟩
  rw [(C9_shared_tables "USES_DEVICE" "device" ["r1", "r2"] c9Nodes c9Edges).2.2.2]
  show (List.mergeSort [("dev_w", 2)] _).head? = _
  rw [List.mergeSort_singleton]
  rfl

end AgentFraud
